import Mathlib

/-!
Verification of the PocketDB store engine (`src/pocketdb.py`) against its
natural-language specification.

The embedding below translates the engine faithfully from the Python source:

* Python values that may be stored are modelled by `PyVal`, a closed
  JSON-like variant plus a `pyobject` constructor standing for any
  non-JSON-serializable Python object (functions, open handles, ...).
  Numbers are modelled by `Int` (float literals play no role in any claim).
* Python dictionaries (`self._data`, `self._ttl`) are modelled as
  association lists in insertion order; `setKey` updates in place or
  appends, `eraseKey` removes an entry, matching `dict` semantics
  (dictionaries never hold a duplicated key, which the well-formedness
  predicate `WF` records).
* `time.time()` is modelled by an `Int` parameter `now` supplied to each
  operation; expiry timestamps are `Int`.
* Python exceptions are modelled by `Except Err`; every stateful operation
  returns `Except Err α × PocketDB`, the second component being the state
  after the call on all paths, including raising ones.  `Err.keyError`
  stands for an uncaught Python `KeyError` (reachable only from
  `_prune_expired` on states violating the expiry-table invariant).
* The lock and the background auto-save thread are not modelled: under the
  reentrant lock every public operation is atomic, so the sequential
  semantics below is exactly the per-operation behaviour the spec
  describes.
* Disk I/O: `pickle.dump`/`pickle.load` of the snapshot record is modelled
  by passing the decoded snapshot (a `PocketDB` triple of the two tables
  and the statistics) in and out as a value; `Option.none` as the read
  result of `load_from_disk` stands for any failure of `open`/`pickle.load`
  or of the field accesses performed before the first table assignment
  (all of which leave the in-memory tables untouched).
-/

/-- Closed variant of Python values storable in the engine: JSON-like data
plus `pyobject`, which stands for any non-JSON-serializable object. -/
inductive PyVal where
  | null : PyVal
  | bool : Bool → PyVal
  | int : Int → PyVal
  | str : String → PyVal
  | list : List PyVal → PyVal
  | dict : List (String × PyVal) → PyVal
  | pyobject : String → PyVal

/-- Argument given for the `ttl` parameter of `set`.  Python's dynamic
typing lets callers pass anything; `isinstance(ttl, int)` distinguishes
exactly the `int` constructor.  `nonInt` stands for any non-`None`,
non-`int` argument (a float, a string, ...), tagged for readability. -/
inductive TTLArg where
  | none : TTLArg
  | int : Int → TTLArg
  | nonInt : String → TTLArg

/-- Exceptions raised by the engine (`PocketDBError` subclasses), plus
`keyError` for an uncaught Python `KeyError` escaping `_prune_expired`. -/
inductive Err where
  | invalidKey : Err
  | invalidValue : Err
  | keyNotFound : Err
  | diskError : Err
  | keyError : Err
deriving DecidableEq

/-- The statistics counters of `self._stats`, in source order. -/
structure Stats where
  gets : Nat
  sets : Nat
  deletes : Nat
  hits : Nat
  misses : Nat
  expired : Nat
deriving DecidableEq

/-- In-memory state of one `PocketDB` instance: the value table
`self._data`, the expiry table `self._ttl` and the counters `self._stats`.
The same triple is what one snapshot record on disk holds, so this type
also serves as the decoded snapshot. -/
structure PocketDB where
  _data : List (String × PyVal)
  _ttl : List (String × Int)
  _stats : Stats

/-- Keys of an association list, in order. -/
def keysOf (l : List (String × α)) : List String :=
  l.map Prod.fst

/-- Lookup in an association list: Python `d[k]` / `d.get(k)`. -/
def getKey? : List (String × α) → String → Option α
  | [], _ => Option.none
  | (k', v) :: rest, k => if k' = k then Option.some v else getKey? rest k

/-- Membership test: Python `k in d`. -/
def hasKey (l : List (String × α)) (k : String) : Bool :=
  (getKey? l k).isSome

/-- Python `d[k] = v`: update in place if the key is present, else append. -/
def setKey (k : String) (v : α) : List (String × α) → List (String × α)
  | [] => [(k, v)]
  | (k', v') :: rest => if k' = k then (k, v) :: rest else (k', v') :: setKey k v rest

/-- Python `del d[k]` on a dictionary (which never holds duplicates). -/
def eraseKey (k : String) (l : List (String × α)) : List (String × α) :=
  l.filter (fun p => ! decide (p.1 = k))

/-- Validation of `PocketDB._validate_key`: the key must be a string that
is non-empty after stripping whitespace.  Keys are `String` in this model,
so only the non-whitespace content check remains. -/
def _validate_key (key : String) : Bool :=
  key.data.any (fun c => ! c.isWhitespace)

mutual

/-- Validation of `PocketDB._validate_value`: `json.dumps(value)` succeeds
exactly when the value contains no non-serializable object. -/
def _validate_value : PyVal → Bool
  | .null => true
  | .bool _ => true
  | .int _ => true
  | .str _ => true
  | .list xs => serializableList xs
  | .dict xs => serializableDict xs
  | .pyobject _ => false

/-- Serializability of every element of a Python list value. -/
def serializableList : List PyVal → Bool
  | [] => true
  | v :: vs => _validate_value v && serializableList vs

/-- Serializability of every field of a Python dict value. -/
def serializableDict : List (String × PyVal) → Bool
  | [] => true
  | p :: vs => _validate_value p.2 && serializableDict vs

end

/-- One deletion step of `_prune_expired`'s second loop body after the
`del self._data[key]` succeeded: remove the key from both tables and
increment the expired counter. -/
def pruneDel (k : String) (db : PocketDB) : PocketDB :=
  { db with
    _data := eraseKey k db._data
    _ttl := eraseKey k db._ttl
    _stats := { db._stats with expired := db._stats.expired + 1 } }

/-- Second loop of `_prune_expired`: delete each collected expired key from
both tables.  `del self._data[key]` raises `KeyError` when the key is
absent from the value table, leaving the state as mutated so far. -/
def _prune_go : List String → PocketDB → Except Err Unit × PocketDB
  | [], db => (Except.ok (), db)
  | k :: ks, db =>
      if hasKey db._data k then _prune_go ks (pruneDel k db)
      else (Except.error Err.keyError, db)

/-- Translation of `PocketDB._prune_expired`: read the clock once, collect
every key of the expiry table whose instant is strictly before `now`, then
delete each from both tables, counting them as expired. -/
def _prune_expired (now : Int) (db : PocketDB) : Except Err Unit × PocketDB :=
  _prune_go (keysOf (db._ttl.filter (fun p => decide (p.2 < now)))) db

/-- Whether `k` has an expiry in `ttlTab` that is strictly before `now`. -/
def isExpired (now : Int) (ttlTab : List (String × Int)) (k : String) : Bool :=
  match getKey? ttlTab k with
  | Option.some e => decide (e < now)
  | Option.none => false

/-- Declarative form of a completed pruning pass: drop every entry whose
key has an expiry strictly before `now` from both tables and add the
number of dropped expiry entries to the expired counter.  `prune_eq`
proves `_prune_expired` computes exactly this on well-formed states. -/
def pruneF (now : Int) (db : PocketDB) : PocketDB :=
  { _data := db._data.filter (fun p => ! isExpired now db._ttl p.1)
    _ttl := db._ttl.filter (fun p => ! decide (p.2 < now))
    _stats := { db._stats with
      expired := db._stats.expired + (db._ttl.filter (fun p => decide (p.2 < now))).length } }

/-- Well-formedness of a store state: both tables are genuine dictionaries
(no duplicated keys) and every key of the expiry table is present in the
value table.  The fresh store is well-formed and every public operation
preserves this, as proved below. -/
def WF (db : PocketDB) : Prop :=
  (keysOf db._data).Nodup ∧ (keysOf db._ttl).Nodup ∧
    ∀ k ∈ keysOf db._ttl, k ∈ keysOf db._data

instance (db : PocketDB) : Decidable (WF db) := by
  unfold WF; infer_instance

namespace PocketDB

/-- Freshly constructed store: `PocketDB.__init__` with empty tables and
zeroed counters. -/
def init : PocketDB :=
  { _data := [], _ttl := [], _stats := ⟨0, 0, 0, 0, 0, 0⟩ }

/-- Translation of `PocketDB.set`.  Note the source order: the value table
is updated before the positivity of an integer `ttl` is checked. -/
def set (now : Int) (key : String) (value : PyVal) (ttl : TTLArg)
    (db : PocketDB) : Except Err Bool × PocketDB :=
  if _validate_key key = false then (Except.error Err.invalidKey, db)
  else if _validate_value value = false then (Except.error Err.invalidValue, db)
  else
    match _prune_expired now db with
    | (Except.error e, db1) => (Except.error e, db1)
    | (Except.ok _, db1) =>
      let db2 := { db1 with _data := setKey key value db1._data }
      match ttl with
      | TTLArg.int n =>
          if n ≤ 0 then (Except.error Err.invalidValue, db2)
          else (Except.ok true, { db2 with _ttl := setKey key (now + n) db2._ttl })
      | _ =>
          if hasKey db2._ttl key then
            (Except.ok true, { db2 with _ttl := eraseKey key db2._ttl })
          else (Except.ok true, db2)

/-- Translation of `PocketDB.get`.  The Python default parameter value is
`None`; a caller omitting the default is modelled by passing
`PyVal.null`, matching the `default_value is not None` test. -/
def get (now : Int) (key : String) (default_value : PyVal)
    (db : PocketDB) : Except Err PyVal × PocketDB :=
  if _validate_key key = false then (Except.error Err.invalidKey, db)
  else
    match _prune_expired now db with
    | (Except.error e, db1) => (Except.error e, db1)
    | (Except.ok _, db1) =>
      match getKey? db1._data key with
      | Option.some v =>
          (Except.ok v,
            { db1 with _stats := { db1._stats with
                gets := db1._stats.gets + 1, hits := db1._stats.hits + 1 } })
      | Option.none =>
          let db2 := { db1 with _stats := { db1._stats with
              gets := db1._stats.gets + 1, misses := db1._stats.misses + 1 } }
          match default_value with
          | PyVal.null => (Except.error Err.keyNotFound, db2)
          | d => (Except.ok d, db2)

/-- Translation of `PocketDB.delete`. -/
def delete (now : Int) (key : String) (db : PocketDB) :
    Except Err Bool × PocketDB :=
  if _validate_key key = false then (Except.error Err.invalidKey, db)
  else
    match _prune_expired now db with
    | (Except.error e, db1) => (Except.error e, db1)
    | (Except.ok _, db1) =>
      if hasKey db1._data key then
        let db2 := { db1 with _data := eraseKey key db1._data }
        let db3 :=
          if hasKey db2._ttl key then { db2 with _ttl := eraseKey key db2._ttl }
          else db2
        (Except.ok true,
          { db3 with _stats := { db3._stats with deletes := db3._stats.deletes + 1 } })
      else (Except.ok false, db1)

/-- Translation of `PocketDB.exists`. -/
def exists' (now : Int) (key : String) (db : PocketDB) :
    Except Err Bool × PocketDB :=
  if _validate_key key = false then (Except.error Err.invalidKey, db)
  else
    match _prune_expired now db with
    | (Except.error e, db1) => (Except.error e, db1)
    | (Except.ok _, db1) => (Except.ok (hasKey db1._data key), db1)

/-- Translation of `PocketDB.size`. -/
def size (now : Int) (db : PocketDB) : Except Err Nat × PocketDB :=
  match _prune_expired now db with
  | (Except.error e, db1) => (Except.error e, db1)
  | (Except.ok _, db1) => (Except.ok db1._data.length, db1)

/-- Shell-style glob matching of `fnmatch.fnmatch` restricted to the
pattern forms the engine's interface describes: literal characters, `*`
(any run of characters) and `?` (any one character).  Character classes
play no role in any claim and are not modelled; on a case-sensitive
filesystem `fnmatch.fnmatch` performs exactly this whole-string match. -/
def globMatch : List Char → List Char → Bool
  | [], [] => true
  | [], _ :: _ => false
  | '*' :: ps, [] => globMatch ps []
  | '*' :: ps, c :: cs => globMatch ps (c :: cs) || globMatch ('*' :: ps) cs
  | '?' :: _, [] => false
  | '?' :: ps, _ :: cs => globMatch ps cs
  | _ :: _, [] => false
  | p :: ps, c :: cs => decide (p = c) && globMatch ps cs
termination_by p s => p.length + s.length

/-- `fnmatch.fnmatch(name, pat)` as used by `keys`. -/
def fnmatch (name pat : String) : Bool :=
  globMatch pat.data name.data

/-- Translation of `PocketDB.keys`: `"*"` returns every key; a pattern
containing `"*"` is matched with `fnmatch`; any other pattern is an exact
equality filter. -/
def keys (now : Int) (pattern : String) (db : PocketDB) :
    Except Err (List String) × PocketDB :=
  match _prune_expired now db with
  | (Except.error e, db1) => (Except.error e, db1)
  | (Except.ok _, db1) =>
    if pattern = "*" then (Except.ok (keysOf db1._data), db1)
    else if pattern.data.contains '*' then
      (Except.ok ((keysOf db1._data).filter (fun k => fnmatch k pattern)), db1)
    else
      (Except.ok ((keysOf db1._data).filter (fun k => decide (k = pattern))), db1)

/-- Translation of `PocketDB.values`. -/
def values (now : Int) (db : PocketDB) : Except Err (List PyVal) × PocketDB :=
  match _prune_expired now db with
  | (Except.error e, db1) => (Except.error e, db1)
  | (Except.ok _, db1) => (Except.ok (db1._data.map Prod.snd), db1)

/-- Translation of `PocketDB.items`. -/
def items (now : Int) (db : PocketDB) :
    Except Err (List (String × PyVal)) × PocketDB :=
  match _prune_expired now db with
  | (Except.error e, db1) => (Except.error e, db1)
  | (Except.ok _, db1) => (Except.ok db1._data, db1)

/-- Translation of `PocketDB.reset`: clear both tables, touch neither the
statistics nor the clock, and do not prune. -/
def reset (db : PocketDB) : Except Err Unit × PocketDB :=
  (Except.ok (), { db with _data := [], _ttl := [] })

/-- Record returned by `PocketDB.stats`. -/
structure StatsResult where
  size : Nat
  ttl_keys : Nat
  gets : Nat
  sets : Nat
  deletes : Nat
  hits : Nat
  misses : Nat
  expired : Nat
  hit_rate : ℚ

/-- Translation of `PocketDB.stats`.  The Python float division
`hits / gets` is modelled exactly over `ℚ`. -/
def stats (now : Int) (db : PocketDB) : Except Err StatsResult × PocketDB :=
  match _prune_expired now db with
  | (Except.error e, db1) => (Except.error e, db1)
  | (Except.ok _, db1) =>
    (Except.ok
      { size := db1._data.length
        ttl_keys := db1._ttl.length
        gets := db1._stats.gets
        sets := db1._stats.sets
        deletes := db1._stats.deletes
        hits := db1._stats.hits
        misses := db1._stats.misses
        expired := db1._stats.expired
        hit_rate :=
          if db1._stats.gets > 0 then (db1._stats.hits : ℚ) / (db1._stats.gets : ℚ)
          else 0 }, db1)

/-- Translation of `PocketDB.save_to_disk`.  `ioFail` models a failure of
`open`/`pickle.dump`; the written snapshot record, when any, is returned as
the third component.  Every exception inside the `try` block — including a
`KeyError` escaping the prune — is wrapped into a `DiskError`. -/
def save_to_disk (now : Int) (ioFail : Bool) (db : PocketDB) :
    Except Err Bool × PocketDB × Option PocketDB :=
  match _prune_expired now db with
  | (Except.error _, db1) => (Except.error Err.diskError, db1, Option.none)
  | (Except.ok _, db1) =>
    if ioFail then (Except.error Err.diskError, db1, Option.none)
    else (Except.ok true, db1, Option.some db1)

/-- Translation of `PocketDB.load_from_disk`.  `read` is the outcome of
`open` + `pickle.load` + the `backup.get` field accesses: `Option.none`
models any failure there (state untouched); `Option.some b` models a
decoded snapshot, whose tables replace the in-memory ones wholesale before
the pruning pass runs on the clock of the load.  Any exception — including
a `KeyError` raised by the prune on a malformed snapshot — is wrapped into
a `DiskError`, with the state left as mutated. -/
def load_from_disk (now : Int) (read : Option PocketDB) (db : PocketDB) :
    Except Err Bool × PocketDB :=
  match read with
  | Option.none => (Except.error Err.diskError, db)
  | Option.some b =>
    match _prune_expired now b with
    | (Except.error _, b1) => (Except.error Err.diskError, b1)
    | (Except.ok _, b1) => (Except.ok true, b1)

end PocketDB

/-- One public engine call together with its arguments, excluding `load`
(which replaces the whole state from a snapshot and is treated separately).
`csave`'s flag tells whether the file write fails. -/
inductive COp where
  | cset : String → PyVal → TTLArg → COp
  | cget : String → PyVal → COp
  | cdelete : String → COp
  | cexists : String → COp
  | csize : COp
  | ckeys : String → COp
  | cvalues : COp
  | citems : COp
  | creset : COp
  | cstats : COp
  | csave : Bool → COp

/-- Whether the key/value validations of a call pass, i.e. the operation
gets past its argument checks and actually touches the tables. -/
def opValid : COp → Bool
  | .cset k v _ => _validate_key k && _validate_value v
  | .cget k _ => _validate_key k
  | .cdelete k => _validate_key k
  | .cexists k => _validate_key k
  | _ => true

/-- State transition of one public call at clock `now`, discarding the
returned value: exactly the second component of the operation's result. -/
def runStep (now : Int) (op : COp) (db : PocketDB) : PocketDB :=
  match op with
  | .cset k v t => (PocketDB.set now k v t db).2
  | .cget k d => (PocketDB.get now k d db).2
  | .cdelete k => (PocketDB.delete now k db).2
  | .cexists k => (PocketDB.exists' now k db).2
  | .csize => (PocketDB.size now db).2
  | .ckeys pat => (PocketDB.keys now pat db).2
  | .cvalues => (PocketDB.values now db).2
  | .citems => (PocketDB.items now db).2
  | .creset => (PocketDB.reset db).2
  | .cstats => (PocketDB.stats now db).2
  | .csave f => (PocketDB.save_to_disk now f db).2.1

/-- State after a sequence of public calls, each with its own clock. -/
def runTrace (tr : List (Int × COp)) (db : PocketDB) : PocketDB :=
  tr.foldl (fun d p => runStep p.1 p.2 d) db

/-- Formalization of the pruning obligation of claim C7 for one call at
clock `now`: afterwards no expiry instant strictly in the past remains in
the expiry table, and the expired counter has grown by exactly the number
of entries of the starting expiry table that were strictly in the past. -/
def prunesFirst (now : Int) (op : COp) (db : PocketDB) : Prop :=
  (∀ p ∈ (runStep now op db)._ttl, ¬ (p.2 < now)) ∧
    (runStep now op db)._stats.expired =
      db._stats.expired + (db._ttl.filter (fun p => decide (p.2 < now))).length

instance (now : Int) (op : COp) (db : PocketDB) :
    Decidable (prunesFirst now op db) := by
  unfold prunesFirst; infer_instance

/-- Restriction of a value table to the entries not yet expired at `now`
according to the expiry table `ttlTab` — the table the save/load
round-trip of claim C10 is stated to reproduce. -/
def restrictData (now : Int) (ttlTab : List (String × Int))
    (tab : List (String × PyVal)) : List (String × PyVal) :=
  tab.filter (fun p => ! isExpired now ttlTab p.1)

/-- Restriction of an expiry table to the entries not yet expired at
`now`. -/
def restrictTTL (now : Int) (ttlTab : List (String × Int)) :
    List (String × Int) :=
  ttlTab.filter (fun p => ! decide (p.2 < now))

/-- Zeroed statistics counters, as in a freshly constructed store. -/
def stats0 : Stats := ⟨0, 0, 0, 0, 0, 0⟩

/-- Store holding one persistent key `"k"` carrying an expiry of instant 5,
used against claim C2. -/
def dbWithTTL : PocketDB := ⟨[("k", PyVal.null)], [("k", 5)], stats0⟩

/-- Store holding the single live key `"ab"` and no expiries, used against
claim C3. -/
def dbGlob : PocketDB := ⟨[("ab", PyVal.null)], [], stats0⟩

/-- Decoded snapshot whose expiry table mentions a key absent from its
value table: applying it makes the post-load pruning pass raise, used
against claim C4. -/
def badSnap : PocketDB := ⟨[], [("k", 0)], stats0⟩

/-- Store holding one live key `"a"`, the state about to be clobbered by
the failing load of claim C4. -/
def dbBefore : PocketDB := ⟨[("a", PyVal.null)], [], stats0⟩

/-- Store holding the key `"k"` expired since instant 0, used against
claim C7's statement about `reset`. -/
def dbExpired : PocketDB := ⟨[("k", PyVal.null)], [("k", 0)], stats0⟩

/-- Store with two keys of which `"b"` carries an expiry of instant 10,
used as concrete witness input for claim C10. -/
def dbTwo : PocketDB := ⟨[("a", PyVal.null), ("b", PyVal.bool true)], [("b", 10)], stats0⟩

/-- Invariant of claim C8: every key present in the expiry table is also
present in the value table. -/
def ttlSubData (db : PocketDB) : Prop :=
  ∀ k ∈ keysOf db._ttl, k ∈ keysOf db._data

instance (db : PocketDB) : Decidable (ttlSubData db) := by
  unfold ttlSubData; infer_instance

/-! ### Association-list lemmas -/

theorem mem_keysOf {l : List (String × α)} {k : String} :
    k ∈ keysOf l ↔ ∃ v, (k, v) ∈ l := by
  constructor
  · intro h
    rcases List.mem_map.1 h with ⟨⟨a, b⟩, hm, rfl⟩
    exact ⟨b, hm⟩
  · rintro ⟨v, hv⟩
    exact List.mem_map.2 ⟨(k, v), hv, rfl⟩

theorem mem_keysOf_of_mem {l : List (String × α)} {p : String × α}
    (h : p ∈ l) : p.1 ∈ keysOf l :=
  List.mem_map.2 ⟨p, h, rfl⟩

theorem getKey?_eq_some_of_mem {l : List (String × α)} {k : String} {v : α}
    (hnd : (keysOf l).Nodup) (hm : (k, v) ∈ l) :
    getKey? l k = Option.some v := by
  induction l with
  | nil => cases hm
  | cons p rest ih =>
    rcases List.mem_cons.1 hm with h | h
    · cases h
      simp [getKey?]
    · have hk : k ∈ keysOf rest := mem_keysOf_of_mem h
      have hne : p.1 ≠ k := by
        intro he
        exact (List.nodup_cons.1 hnd).1 (he ▸ hk)
      cases p with
      | mk a b =>
        simp only [getKey?, if_neg hne]
        exact ih (List.nodup_cons.1 hnd).2 h

theorem mem_of_getKey?_eq_some {l : List (String × α)} {k : String} {v : α}
    (h : getKey? l k = Option.some v) : (k, v) ∈ l := by
  induction l with
  | nil => cases h
  | cons p rest ih =>
    cases p with
    | mk a b =>
      by_cases ha : a = k
      · subst ha
        simp [getKey?] at h
        exact h ▸ List.mem_cons_self _ _
      · simp only [getKey?, if_neg ha] at h
        exact List.mem_cons_of_mem _ (ih h)

theorem hasKey_iff_mem_keysOf {l : List (String × α)} {k : String} :
    hasKey l k = true ↔ k ∈ keysOf l := by
  unfold hasKey
  rw [Option.isSome_iff_exists]
  constructor
  · rintro ⟨v, hv⟩
    exact mem_keysOf.2 ⟨v, mem_of_getKey?_eq_some hv⟩
  · intro h
    induction l with
    | nil => simp [keysOf] at h
    | cons p rest ih =>
      cases p with
      | mk a b =>
        by_cases ha : a = k
        · exact ⟨b, by simp [getKey?, ha]⟩
        · rcases List.mem_cons.1 h with h1 | h1
          · exact absurd h1.symm ha
          · rcases ih h1 with ⟨v, hv⟩
            exact ⟨v, by simp [getKey?, if_neg ha, hv]⟩

theorem getKey?_eq_none_of_not_mem {l : List (String × α)} {k : String}
    (h : k ∉ keysOf l) : getKey? l k = Option.none := by
  cases hg : getKey? l k with
  | none => rfl
  | some v => exact absurd (mem_keysOf.2 ⟨v, mem_of_getKey?_eq_some hg⟩) h

theorem mem_eraseKey {l : List (String × α)} {k : String} {p : String × α} :
    p ∈ eraseKey k l ↔ p ∈ l ∧ p.1 ≠ k := by
  unfold eraseKey
  rw [List.mem_filter]
  simp

theorem keysOf_eraseKey {l : List (String × α)} {k : String} :
    keysOf (eraseKey k l) = (keysOf l).filter (fun a => ! decide (a = k)) := by
  unfold eraseKey keysOf
  rw [List.filter_map]
  rfl

theorem nodup_keysOf_eraseKey {l : List (String × α)} {k : String}
    (h : (keysOf l).Nodup) : (keysOf (eraseKey k l)).Nodup := by
  rw [keysOf_eraseKey]
  exact h.filter _

theorem eraseKey_of_not_mem {l : List (String × α)} {k : String}
    (h : k ∉ keysOf l) : eraseKey k l = l := by
  unfold eraseKey
  apply List.filter_eq_self.2
  intro p hp
  simp only [Bool.not_eq_true', decide_eq_false_iff_not]
  intro he
  exact h (he ▸ mem_keysOf_of_mem hp)

theorem getKey?_eraseKey_self {l : List (String × α)} {k : String} :
    getKey? (eraseKey k l) k = Option.none := by
  apply getKey?_eq_none_of_not_mem
  rw [keysOf_eraseKey]
  intro h
  rcases List.mem_filter.1 h with ⟨_, hb⟩
  simp at hb

theorem mem_keysOf_setKey {l : List (String × α)} {k a : String} {v : α} :
    a ∈ keysOf (setKey k v l) ↔ a ∈ keysOf l ∨ a = k := by
  induction l with
  | nil => simp [setKey, keysOf]
  | cons p rest ih =>
    obtain ⟨b, w⟩ := p
    by_cases hb : b = k
    · simp only [setKey, if_pos hb, keysOf, List.map_cons, List.mem_cons] at *
      subst hb
      tauto
    · simp only [setKey, if_neg hb, keysOf, List.map_cons, List.mem_cons] at *
      tauto

theorem nodup_keysOf_setKey {k : String} {v : α} :
    ∀ {l : List (String × α)}, (keysOf l).Nodup → (keysOf (setKey k v l)).Nodup := by
  intro l
  induction l with
  | nil => intro _; simp [setKey, keysOf]
  | cons p rest ih =>
    obtain ⟨b, w⟩ := p
    intro h
    simp only [keysOf, List.map_cons, List.nodup_cons] at h
    by_cases hbk : b = k
    · simp only [setKey, if_pos hbk, keysOf, List.map_cons, List.nodup_cons]
      exact hbk ▸ h
    · simp only [setKey, if_neg hbk, keysOf, List.map_cons, List.nodup_cons]
      refine ⟨?_, ih h.2⟩
      intro hmem
      rcases mem_keysOf_setKey.1 hmem with h1 | h1
      · exact h.1 h1
      · exact hbk h1

theorem getKey?_setKey_self {l : List (String × α)} {k : String} {v : α} :
    getKey? (setKey k v l) k = Option.some v := by
  induction l with
  | nil => simp [setKey, getKey?]
  | cons p rest ih =>
    cases p with
    | mk b w =>
      by_cases hb : b = k
      · subst hb
        simp [setKey, getKey?]
      · simp [setKey, if_neg hb, getKey?, hb, ih]

theorem getKey?_setKey_ne {l : List (String × α)} {k a : String} {v : α}
    (h : a ≠ k) : getKey? (setKey k v l) a = getKey? l a := by
  have hka : ¬ (k = a) := fun he => h he.symm
  induction l with
  | nil => simp [setKey, getKey?, hka]
  | cons p rest ih =>
    obtain ⟨b, w⟩ := p
    by_cases hb : b = k
    · simp only [setKey, if_pos hb, getKey?]
      rw [if_neg hka, if_neg (hb ▸ hka)]
    · simp only [setKey, if_neg hb, getKey?]
      by_cases hba : b = a
      · rw [if_pos hba, if_pos hba]
      · rw [if_neg hba, if_neg hba, ih]

/-! ### The pruning pass -/

theorem _prune_go_spec (ks : List String) : ∀ (db : PocketDB), ks.Nodup →
    (∀ k ∈ ks, k ∈ keysOf db._data) →
    _prune_go ks db = (Except.ok (),
      { _data := db._data.filter (fun p => ! decide (p.1 ∈ ks))
        _ttl := db._ttl.filter (fun p => ! decide (p.1 ∈ ks))
        _stats := { db._stats with expired := db._stats.expired + ks.length } }) := by
  induction ks with
  | nil =>
    intro db _ _
    simp [_prune_go]
  | cons k ks ih =>
    intro db hnd hmem
    have hk : hasKey db._data k = true :=
      hasKey_iff_mem_keysOf.2 (hmem k (List.mem_cons_self k ks))
    have hknotin : k ∉ ks := (List.nodup_cons.1 hnd).1
    have hstep : _prune_go (k :: ks) db = _prune_go ks (pruneDel k db) := by
      simp only [_prune_go, if_pos hk]
    rw [hstep, ih (pruneDel k db) (List.nodup_cons.1 hnd).2 ?hside]
    case hside =>
      intro k' hk'
      have hne : k' ≠ k := fun he => hknotin (he ▸ hk')
      have hmem' : k' ∈ keysOf db._data :=
        hmem k' (List.mem_cons_of_mem _ hk')
      simp only [pruneDel, keysOf_eraseKey]
      rw [List.mem_filter]
      exact ⟨hmem', by simp [hne]⟩
    have hdata : (eraseKey k db._data).filter (fun p => ! decide (p.1 ∈ ks)) =
        db._data.filter (fun p => ! decide (p.1 ∈ k :: ks)) := by
      unfold eraseKey
      rw [List.filter_filter]
      apply List.filter_congr
      intro p _
      by_cases h1 : p.1 = k <;> by_cases h2 : p.1 ∈ ks <;>
        simp [h1, h2, List.mem_cons, hknotin]
    have httl : (eraseKey k db._ttl).filter (fun p => ! decide (p.1 ∈ ks)) =
        db._ttl.filter (fun p => ! decide (p.1 ∈ k :: ks)) := by
      unfold eraseKey
      rw [List.filter_filter]
      apply List.filter_congr
      intro p _
      by_cases h1 : p.1 = k <;> by_cases h2 : p.1 ∈ ks <;>
        simp [h1, h2, List.mem_cons, hknotin]
    simp only [pruneDel] at hdata httl ⊢
    rw [hdata, httl]
    have hlen : db._stats.expired + 1 + ks.length =
        db._stats.expired + (k :: ks).length := by
      simp [List.length_cons]
      omega
    rw [hlen]

theorem prune_eq (now : Int) {db : PocketDB} (h : WF db) :
    _prune_expired now db = (Except.ok (), pruneF now db) := by
  obtain ⟨hd, ht, hsub⟩ := h
  unfold _prune_expired
  have hsl : (db._ttl.filter (fun p => decide (p.2 < now))).Sublist db._ttl :=
    List.filter_sublist _
  have hnd : (keysOf (db._ttl.filter (fun p => decide (p.2 < now)))).Nodup :=
    List.Nodup.sublist (hsl.map Prod.fst) ht
  have hmem : ∀ k ∈ keysOf (db._ttl.filter (fun p => decide (p.2 < now))),
      k ∈ keysOf db._data := by
    intro k hk
    apply hsub
    rcases List.mem_map.1 hk with ⟨p, hp, rfl⟩
    exact mem_keysOf_of_mem (List.mem_filter.1 hp).1
  rw [_prune_go_spec _ db hnd hmem]
  have hkey : ∀ a : String,
      (a ∈ keysOf (db._ttl.filter (fun p => decide (p.2 < now)))) ↔
        isExpired now db._ttl a = true := by
    intro a
    constructor
    · intro hmm
      rcases List.mem_map.1 hmm with ⟨p, hp, rfl⟩
      rcases List.mem_filter.1 hp with ⟨hpl, hplt⟩
      have : getKey? db._ttl p.1 = Option.some p.2 :=
        getKey?_eq_some_of_mem ht hpl
      simp only [isExpired, this]
      simpa using hplt
    · intro hie
      unfold isExpired at hie
      cases hg : getKey? db._ttl a with
      | none => rw [hg] at hie; cases hie
      | some e =>
        rw [hg] at hie
        apply List.mem_map.2
        refine ⟨(a, e), List.mem_filter.2 ⟨mem_of_getKey?_eq_some hg, ?_⟩, rfl⟩
        simpa using hie
  have hdata : db._data.filter
        (fun p => ! decide (p.1 ∈ keysOf (db._ttl.filter (fun q => decide (q.2 < now))))) =
      db._data.filter (fun p => ! isExpired now db._ttl p.1) := by
    apply List.filter_congr
    intro p _
    by_cases hc : isExpired now db._ttl p.1 = true
    · simp [hc, (hkey p.1).2 hc]
    · have : p.1 ∉ keysOf (db._ttl.filter (fun q => decide (q.2 < now))) :=
        fun hi => hc ((hkey p.1).1 hi)
      simp only [Bool.not_eq_true] at hc
      simp [this, hc]
  have httl : db._ttl.filter
        (fun p => ! decide (p.1 ∈ keysOf (db._ttl.filter (fun q => decide (q.2 < now))))) =
      db._ttl.filter (fun p => ! decide (p.2 < now)) := by
    apply List.filter_congr
    intro p hp
    have : (p.1 ∈ keysOf (db._ttl.filter (fun q => decide (q.2 < now)))) ↔ p.2 < now := by
      rw [hkey p.1]
      unfold isExpired
      rw [getKey?_eq_some_of_mem ht hp]
      simp
    by_cases hc : p.2 < now
    · simp [this, hc]
    · simp [this, hc]
  unfold pruneF
  rw [hdata, httl]
  have hlen : (keysOf (db._ttl.filter (fun p => decide (p.2 < now)))).length =
      (db._ttl.filter (fun p => decide (p.2 < now))).length := by
    simp [keysOf]
  rw [hlen]

theorem WF_pruneF (now : Int) {db : PocketDB} (h : WF db) : WF (pruneF now db) := by
  obtain ⟨hd, ht, hsub⟩ := h
  refine ⟨?_, ?_, ?_⟩
  · exact List.Nodup.sublist ((List.filter_sublist _).map Prod.fst) hd
  · exact List.Nodup.sublist ((List.filter_sublist _).map Prod.fst) ht
  · intro k hk
    rcases List.mem_map.1 hk with ⟨p, hp, rfl⟩
    rcases List.mem_filter.1 hp with ⟨hpl, hpe⟩
    have hgk : getKey? db._ttl p.1 = Option.some p.2 :=
      getKey?_eq_some_of_mem ht hpl
    have hne : isExpired now db._ttl p.1 = false := by
      unfold isExpired
      rw [hgk]
      simpa using hpe
    have hkd : p.1 ∈ keysOf db._data := hsub p.1 (mem_keysOf_of_mem hpl)
    rcases mem_keysOf.1 hkd with ⟨v, hv⟩
    apply mem_keysOf.2
    refine ⟨v, List.mem_filter.2 ⟨hv, ?_⟩⟩
    simp [hne]

/-! ### Preservation of well-formedness -/

theorem WF_init : WF PocketDB.init := by
  refine ⟨List.nodup_nil, List.nodup_nil, ?_⟩
  intro k hk
  simp [PocketDB.init, keysOf] at hk

theorem WF_reset {db : PocketDB} :
    WF { db with _data := [], _ttl := [] } := by
  refine ⟨List.nodup_nil, List.nodup_nil, ?_⟩
  intro k hk
  simp [keysOf] at hk

theorem WF_set_tables {key : String} {v : PyVal} {e : Int} {db : PocketDB}
    (h : WF db) :
    WF { db with _data := setKey key v db._data, _ttl := setKey key e db._ttl } := by
  obtain ⟨hd, ht, hsub⟩ := h
  refine ⟨nodup_keysOf_setKey hd, nodup_keysOf_setKey ht, ?_⟩
  intro k hk
  rcases mem_keysOf_setKey.1 hk with h1 | h1
  · exact mem_keysOf_setKey.2 (Or.inl (hsub k h1))
  · exact mem_keysOf_setKey.2 (Or.inr h1)

theorem WF_set_data_erase {key : String} {v : PyVal} {db : PocketDB}
    (h : WF db) :
    WF { db with _data := setKey key v db._data, _ttl := eraseKey key db._ttl } := by
  obtain ⟨hd, ht, hsub⟩ := h
  refine ⟨nodup_keysOf_setKey hd, nodup_keysOf_eraseKey ht, ?_⟩
  intro k hk
  rw [keysOf_eraseKey] at hk
  rcases List.mem_filter.1 hk with ⟨h1, _⟩
  exact mem_keysOf_setKey.2 (Or.inl (hsub k h1))

theorem WF_set_data_only {key : String} {v : PyVal} {db : PocketDB}
    (h : WF db) :
    WF { db with _data := setKey key v db._data } := by
  obtain ⟨hd, ht, hsub⟩ := h
  refine ⟨nodup_keysOf_setKey hd, ht, ?_⟩
  intro k hk
  exact mem_keysOf_setKey.2 (Or.inl (hsub k hk))

theorem WF_erase_both {key : String} {db : PocketDB} (h : WF db) :
    WF { db with _data := eraseKey key db._data, _ttl := eraseKey key db._ttl } := by
  obtain ⟨hd, ht, hsub⟩ := h
  refine ⟨nodup_keysOf_eraseKey hd, nodup_keysOf_eraseKey ht, ?_⟩
  intro k hk
  rw [keysOf_eraseKey] at hk ⊢
  rcases List.mem_filter.1 hk with ⟨h1, h2⟩
  exact List.mem_filter.2 ⟨hsub k h1, h2⟩

theorem WF_erase_data_only {key : String} {db : PocketDB} (h : WF db)
    (hks : hasKey db._ttl key = false) :
    WF { db with _data := eraseKey key db._data } := by
  obtain ⟨hd, ht, hsub⟩ := h
  refine ⟨nodup_keysOf_eraseKey hd, ht, ?_⟩
  intro k hk
  have hne : k ≠ key := by
    intro he
    subst he
    rw [← hasKey_iff_mem_keysOf] at hk
    rw [hk] at hks
    cases hks
  rw [keysOf_eraseKey]
  exact List.mem_filter.2 ⟨hsub k hk, by simp [hne]⟩

theorem runStep_WF (now : Int) (op : COp) {db : PocketDB} (h : WF db) :
    WF (runStep now op db) := by
  cases op with
  | cset k v t =>
    simp only [runStep, PocketDB.set]
    by_cases hk : _validate_key k = false
    · rw [if_pos hk]; exact h
    · rw [if_neg hk]
      by_cases hv : _validate_value v = false
      · rw [if_pos hv]; exact h
      · rw [if_neg hv]
        rw [prune_eq now h]
        have hP := WF_pruneF now h
        cases t with
        | int n =>
          by_cases hn : n ≤ 0
          · simpa [hn] using @WF_set_data_only k v _ hP
          · simpa [hn] using @WF_set_tables k v (now + n) _ hP
        | none =>
          by_cases he2 : hasKey (pruneF now db)._ttl k = true
          · simpa [he2] using @WF_set_data_erase k v _ hP
          · simp only [Bool.not_eq_true] at he2
            simpa [he2] using @WF_set_data_only k v _ hP
        | nonInt s =>
          by_cases he2 : hasKey (pruneF now db)._ttl k = true
          · simpa [he2] using @WF_set_data_erase k v _ hP
          · simp only [Bool.not_eq_true] at he2
            simpa [he2] using @WF_set_data_only k v _ hP
  | cget k d =>
    simp only [runStep, PocketDB.get]
    by_cases hk : _validate_key k = false
    · rw [if_pos hk]; exact h
    · rw [if_neg hk]
      rw [prune_eq now h]
      have hP := WF_pruneF now h
      cases hg : getKey? (pruneF now db)._data k with
      | some v => simpa [hg] using hP
      | none =>
        cases d <;> simp [hg] <;> exact hP
  | cdelete k =>
    simp only [runStep, PocketDB.delete]
    by_cases hk : _validate_key k = false
    · rw [if_pos hk]; exact h
    · rw [if_neg hk]
      rw [prune_eq now h]
      have hP := WF_pruneF now h
      by_cases hd : hasKey (pruneF now db)._data k = true
      · simp only [hd, if_true]
        by_cases ht : hasKey (pruneF now db)._ttl k = true
        · simpa [ht] using @WF_erase_both k _ hP
        · simp only [Bool.not_eq_true] at ht
          simpa [ht] using @WF_erase_data_only k _ hP ht
      · simp only [Bool.not_eq_true] at hd
        simpa [hd] using hP
  | cexists k =>
    simp only [runStep, PocketDB.exists']
    by_cases hk : _validate_key k = false
    · rw [if_pos hk]; exact h
    · rw [if_neg hk]
      rw [prune_eq now h]
      exact WF_pruneF now h
  | csize =>
    simp only [runStep, PocketDB.size]
    rw [prune_eq now h]
    exact WF_pruneF now h
  | ckeys pat =>
    simp only [runStep, PocketDB.keys]
    rw [prune_eq now h]
    have hP := WF_pruneF now h
    by_cases h1 : pat = "*"
    · simpa [h1] using hP
    · by_cases h2 : '*' ∈ pat.data
      · simp [h1, h2]; exact hP
      · simp [h1, h2]; exact hP
  | cvalues =>
    simp only [runStep, PocketDB.values]
    rw [prune_eq now h]
    exact WF_pruneF now h
  | citems =>
    simp only [runStep, PocketDB.items]
    rw [prune_eq now h]
    exact WF_pruneF now h
  | creset =>
    simp only [runStep, PocketDB.reset]
    exact WF_reset
  | cstats =>
    simp only [runStep, PocketDB.stats]
    rw [prune_eq now h]
    exact WF_pruneF now h
  | csave f =>
    simp only [runStep, PocketDB.save_to_disk]
    rw [prune_eq now h]
    cases f <;> simp <;> exact WF_pruneF now h

theorem runTrace_cons (p : Int × COp) (tr : List (Int × COp)) (db : PocketDB) :
    runTrace (p :: tr) db = runTrace tr (runStep p.1 p.2 db) := by
  simp [runTrace]

theorem runTrace_WF_of (tr : List (Int × COp)) :
    ∀ {db : PocketDB}, WF db → WF (runTrace tr db) := by
  induction tr with
  | nil => intro db h; exact h
  | cons p tr ih =>
    intro db h
    rw [runTrace_cons]
    exact ih (runStep_WF p.1 p.2 h)

theorem runTrace_WF (tr : List (Int × COp)) : WF (runTrace tr PocketDB.init) :=
  runTrace_WF_of tr WF_init

theorem runStep_sets (now : Int) (op : COp) {db : PocketDB} (h : WF db) :
    (runStep now op db)._stats.sets = db._stats.sets := by
  cases op with
  | cset k v t =>
    simp only [runStep, PocketDB.set]
    by_cases hk : _validate_key k = false
    · rw [if_pos hk]
    · rw [if_neg hk]
      by_cases hv : _validate_value v = false
      · rw [if_pos hv]
      · rw [if_neg hv]
        rw [prune_eq now h]
        cases t with
        | int n => by_cases hn : n ≤ 0 <;> simp [hn, pruneF]
        | none =>
          by_cases he : hasKey (pruneF now db)._ttl k = true
          · simp only [he, if_true]
            simp [pruneF]
          · simp only [Bool.not_eq_true] at he
            simp only [he]
            simp [pruneF]
        | nonInt s =>
          by_cases he : hasKey (pruneF now db)._ttl k = true
          · simp only [he, if_true]
            simp [pruneF]
          · simp only [Bool.not_eq_true] at he
            simp only [he]
            simp [pruneF]
  | cget k d =>
    simp only [runStep, PocketDB.get]
    by_cases hk : _validate_key k = false
    · rw [if_pos hk]
    · rw [if_neg hk]
      rw [prune_eq now h]
      cases hg : getKey? (pruneF now db)._data k with
      | some v =>
        simp [hg]
        simp [pruneF]
      | none =>
        cases d <;> simp [hg] <;> simp [pruneF]
  | cdelete k =>
    simp only [runStep, PocketDB.delete]
    by_cases hk : _validate_key k = false
    · rw [if_pos hk]
    · rw [if_neg hk]
      rw [prune_eq now h]
      by_cases hd : hasKey (pruneF now db)._data k = true
      · simp only [hd, if_true]
        by_cases ht2 : hasKey (pruneF now db)._ttl k = true
        · simp only [ht2, if_true]
          simp [pruneF]
        · simp only [Bool.not_eq_true] at ht2
          simp only [ht2]
          simp [pruneF]
      · simp only [Bool.not_eq_true] at hd
        simp only [hd]
        simp [pruneF]
  | cexists k =>
    simp only [runStep, PocketDB.exists']
    by_cases hk : _validate_key k = false
    · rw [if_pos hk]
    · rw [if_neg hk]
      rw [prune_eq now h]
      simp [pruneF]
  | csize =>
    simp only [runStep, PocketDB.size]
    rw [prune_eq now h]
    simp [pruneF]
  | ckeys pat =>
    simp only [runStep, PocketDB.keys]
    rw [prune_eq now h]
    by_cases h1 : pat = "*"
    · simp [h1, pruneF]
    · by_cases h2 : '*' ∈ pat.data <;> simp [h1, h2, pruneF]
  | cvalues =>
    simp only [runStep, PocketDB.values]
    rw [prune_eq now h]
    simp [pruneF]
  | citems =>
    simp only [runStep, PocketDB.items]
    rw [prune_eq now h]
    simp [pruneF]
  | creset =>
    simp [runStep, PocketDB.reset]
  | cstats =>
    simp only [runStep, PocketDB.stats]
    rw [prune_eq now h]
    simp [pruneF]
  | csave f =>
    simp only [runStep, PocketDB.save_to_disk]
    rw [prune_eq now h]
    cases f <;> simp [pruneF]

theorem runTrace_sets_eq (tr : List (Int × COp)) :
    ∀ {db : PocketDB}, WF db → (runTrace tr db)._stats.sets = db._stats.sets := by
  induction tr with
  | nil => intro db _; rfl
  | cons p tr ih =>
    intro db h
    rw [runTrace_cons, ih (runStep_WF p.1 p.2 h), runStep_sets p.1 p.2 h]

theorem mem_setKey {l : List (String × α)} {k : String} {v : α} {p : String × α}
    (h : p ∈ setKey k v l) : p ∈ l ∨ p = (k, v) := by
  induction l with
  | nil =>
    simp [setKey] at h
    exact Or.inr h
  | cons q rest ih =>
    obtain ⟨b, w⟩ := q
    by_cases hb : b = k
    · simp only [setKey, if_pos hb] at h
      rcases List.mem_cons.1 h with h1 | h1
      · exact Or.inr h1
      · exact Or.inl (List.mem_cons_of_mem _ h1)
    · simp only [setKey, if_neg hb] at h
      rcases List.mem_cons.1 h with h1 | h1
      · exact Or.inl (h1 ▸ List.mem_cons_self _ _)
      · rcases ih h1 with h2 | h2
        · exact Or.inl (List.mem_cons_of_mem _ h2)
        · exact Or.inr h2

theorem noExpired_pruneF (now : Int) (db : PocketDB) :
    ∀ p ∈ (pruneF now db)._ttl, ¬ (p.2 < now) := by
  intro p hp
  have hb := (List.mem_filter.1 hp).2
  simpa using hb

theorem expired_pruneF (now : Int) (db : PocketDB) :
    (pruneF now db)._stats.expired =
      db._stats.expired + (db._ttl.filter (fun p => decide (p.2 < now))).length := by
  simp [pruneF]

/-! ### Claims -/

/-- Claim C1, counterexample: `set("k", null, ttl = 0)` on a fresh store
fails with `InvalidValue` as the claim states, but the store state is NOT
unchanged — the value table now holds the key `"k"`, because the source
assigns `self._data[key] = value` before checking the positivity of the
supplied integer `ttl`. -/
theorem C1_counterexample :
    (PocketDB.set 0 "k" PyVal.null (TTLArg.int 0) PocketDB.init).1 =
        Except.error Err.invalidValue ∧
      keysOf (PocketDB.set 0 "k" PyVal.null (TTLArg.int 0) PocketDB.init).2._data =
        ["k"] ∧
      keysOf PocketDB.init._data = [] :=
  ⟨rfl, rfl, rfl⟩

/-- Claim C1 as amended: for every valid key, serializable value and
integer `ttl ≤ 0`, `set` fails with `InvalidValue`, but the state it
leaves behind is the pruned state with the value table additionally
updated at the key: the new value has already been written when the error
is raised, while the expiry table (beyond the prune) and the counters
(beyond the prune's expired count) are untouched. -/
theorem C1_set_nonpositive_ttl (now : Int) (key : String) (value : PyVal)
    (n : Int) (db : PocketDB) (hwf : WF db) (hk : _validate_key key = true)
    (hv : _validate_value value = true) (hn : n ≤ 0) :
    PocketDB.set now key value (TTLArg.int n) db =
      (Except.error Err.invalidValue,
        { pruneF now db with _data := setKey key value (pruneF now db)._data }) := by
  unfold PocketDB.set
  rw [if_neg (by simp [hk]), if_neg (by simp [hv]), prune_eq now hwf]
  simp [hn]

/-- Claim C1, witness: the amended statement evaluated on a fresh store at
key `"k"`, value `null`, `ttl = 0`. -/
theorem C1_witness :
    PocketDB.set 0 "k" PyVal.null (TTLArg.int 0) PocketDB.init =
      (Except.error Err.invalidValue,
        { pruneF 0 PocketDB.init with
          _data := setKey "k" PyVal.null (pruneF 0 PocketDB.init)._data }) :=
  C1_set_nonpositive_ttl 0 "k" PyVal.null 0 PocketDB.init (by decide) (by decide)
    (by decide) (by decide)

/-- Claim C2, counterexample: `set("k", null, ttl = 1.5)` — a supplied
`ttl` that is not an integer — does NOT fail with `InvalidValue`: it
returns true, and it silently drops the existing expiry recorded for the
key, because `isinstance(ttl, int)` routes every non-integer `ttl` to the
no-`ttl` branch of the source. -/
theorem C2_counterexample :
    (PocketDB.set 0 "k" PyVal.null (TTLArg.nonInt "1.5") dbWithTTL).1 =
        Except.ok true ∧
      (PocketDB.set 0 "k" PyVal.null (TTLArg.nonInt "1.5") dbWithTTL).2._ttl = [] ∧
      dbWithTTL._ttl = [("k", 5)] :=
  ⟨rfl, rfl, rfl⟩

/-- Claim C2 as amended: only a supplied integer `ttl ≤ 0` fails with
`InvalidValue`; a supplied non-integer `ttl` (a float, a string, ...) does
not fail at all — the call succeeds as if no `ttl` had been given, storing
the value and removing any expiry previously recorded for the key. -/
theorem C2_set_nonint_ttl (now : Int) (key : String) (value : PyVal)
    (t : String) (db : PocketDB) (hwf : WF db) (hk : _validate_key key = true)
    (hv : _validate_value value = true) :
    PocketDB.set now key value (TTLArg.nonInt t) db =
      (Except.ok true,
        { pruneF now db with
          _data := setKey key value (pruneF now db)._data
          _ttl := eraseKey key (pruneF now db)._ttl }) := by
  unfold PocketDB.set
  rw [if_neg (by simp [hk]), if_neg (by simp [hv]), prune_eq now hwf]
  by_cases he : hasKey (pruneF now db)._ttl key = true
  · simp [he]
  · simp only [Bool.not_eq_true] at he
    have hnot : key ∉ keysOf (pruneF now db)._ttl := by
      rw [← hasKey_iff_mem_keysOf, he]
      simp
    rw [eraseKey_of_not_mem hnot]
    simp [he]

/-- Claim C2, witness: the amended statement evaluated at a non-integer
`ttl` of `"2.5"` on a store whose key `"k"` carries an expiry. -/
theorem C2_witness :
    PocketDB.set 0 "k" PyVal.null (TTLArg.nonInt "2.5") dbWithTTL =
      (Except.ok true,
        { pruneF 0 dbWithTTL with
          _data := setKey "k" PyVal.null (pruneF 0 dbWithTTL)._data
          _ttl := eraseKey "k" (pruneF 0 dbWithTTL)._ttl }) :=
  C2_set_nonint_ttl 0 "k" PyVal.null "2.5" dbWithTTL (by decide) (by decide)
    (by decide)

/-- Claim C4, counterexample: loading a decoded snapshot whose expiry
table mentions the key `"k"` while its value table is empty fails with
`DiskError` — yet the store's value table has been overwritten (the
previously live key `"a"` is gone), because the source assigns the loaded
tables wholesale before the pruning pass raises. -/
theorem C4_counterexample :
    (PocketDB.load_from_disk 1 (Option.some badSnap) dbBefore).1 =
        Except.error Err.diskError ∧
      keysOf (PocketDB.load_from_disk 1 (Option.some badSnap) dbBefore).2._data = [] ∧
      keysOf dbBefore._data = ["a"] :=
  ⟨rfl, rfl, rfl⟩

/-- Claim C4 as amended: `load` is all-or-nothing only for failures of the
file read or deserialization itself (the tables are untouched then), and a
well-formed decoded snapshot loads successfully, replaced wholesale and
pruned; but a `DiskError` raised while applying a malformed decoded
snapshot (see the counterexample) leaves the loaded tables in place, so
load is not all-or-nothing for every deserialization failure. -/
theorem C4_load_failure_modes :
    (∀ (now : Int) (db : PocketDB),
      PocketDB.load_from_disk now Option.none db =
        (Except.error Err.diskError, db)) ∧
    ∀ (now : Int) (b db : PocketDB), WF b →
      PocketDB.load_from_disk now (Option.some b) db =
        (Except.ok true, pruneF now b) := by
  constructor
  · intro now db
    rfl
  · intro now b db hb
    have h1 : PocketDB.load_from_disk now (Option.some b) db =
        match _prune_expired now b with
        | (Except.error _, b1) => (Except.error Err.diskError, b1)
        | (Except.ok _, b1) => (Except.ok true, b1) := rfl
    rw [h1, prune_eq now hb]

/-- Claim C4, witness: the amended statement evaluated on a read failure
over a live store and on a well-formed snapshot loaded into a fresh
store. -/
theorem C4_witness :
    PocketDB.load_from_disk 3 Option.none dbBefore =
        (Except.error Err.diskError, dbBefore) ∧
      PocketDB.load_from_disk 3 (Option.some dbWithTTL) PocketDB.init =
        (Except.ok true, pruneF 3 dbWithTTL) :=
  ⟨C4_load_failure_modes.1 3 dbBefore,
   C4_load_failure_modes.2 3 dbWithTTL PocketDB.init (by decide)⟩

/-- Claim C5, counterexample: `get("k", default = null)` on a store not
holding `"k"` does not return the supplied `null` default — it fails with
`KeyNotFound`, because the source tests `default_value is not None`, which
cannot distinguish an explicit `None` default from no default at all. -/
theorem C5_counterexample :
    (PocketDB.get 0 "k" PyVal.null PocketDB.init).1 =
        Except.error Err.keyNotFound ∧
      keysOf PocketDB.init._data = [] ∧ _validate_key "k" = true :=
  ⟨rfl, rfl, rfl⟩

/-- Claim C5 as amended: on a valid key absent after pruning, `get`
increments the gets and misses counters and returns the supplied default
when that default is not `null`; a `null` default is indistinguishable
from an absent default, so the call fails with `KeyNotFound` (with the
same counter increments). -/
theorem C5_get_absent (now : Int) (key : String) (d : PyVal) (db : PocketDB)
    (hwf : WF db) (hk : _validate_key key = true)
    (habs : getKey? (pruneF now db)._data key = Option.none) :
    (d ≠ PyVal.null →
      PocketDB.get now key d db =
        (Except.ok d,
          { pruneF now db with _stats := { (pruneF now db)._stats with
              gets := (pruneF now db)._stats.gets + 1
              misses := (pruneF now db)._stats.misses + 1 } })) ∧
    PocketDB.get now key PyVal.null db =
      (Except.error Err.keyNotFound,
        { pruneF now db with _stats := { (pruneF now db)._stats with
            gets := (pruneF now db)._stats.gets + 1
            misses := (pruneF now db)._stats.misses + 1 } }) := by
  constructor
  · intro hd
    unfold PocketDB.get
    rw [if_neg (by simp [hk]), prune_eq now hwf]
    cases d with
    | null => exact absurd rfl hd
    | bool b => simp [habs]
    | int n => simp [habs]
    | str s => simp [habs]
    | list xs => simp [habs]
    | dict xs => simp [habs]
    | pyobject s => simp [habs]
  · unfold PocketDB.get
    rw [if_neg (by simp [hk]), prune_eq now hwf]
    simp [habs]

/-- Claim C5, witness: the amended statement evaluated on a fresh store at
key `"k"` with the non-null default `7` and with the null default. -/
theorem C5_witness :
    PocketDB.get 0 "k" (PyVal.int 7) PocketDB.init =
        (Except.ok (PyVal.int 7),
          { pruneF 0 PocketDB.init with
            _stats := { (pruneF 0 PocketDB.init)._stats with
              gets := (pruneF 0 PocketDB.init)._stats.gets + 1
              misses := (pruneF 0 PocketDB.init)._stats.misses + 1 } }) ∧
      PocketDB.get 0 "k" PyVal.null PocketDB.init =
        (Except.error Err.keyNotFound,
          { pruneF 0 PocketDB.init with
            _stats := { (pruneF 0 PocketDB.init)._stats with
              gets := (pruneF 0 PocketDB.init)._stats.gets + 1
              misses := (pruneF 0 PocketDB.init)._stats.misses + 1 } }) :=
  ⟨(C5_get_absent 0 "k" (PyVal.int 7) PocketDB.init (by decide) (by decide)
      rfl).1 (by intro hc; cases hc),
   (C5_get_absent 0 "k" PyVal.null PocketDB.init (by decide) (by decide)
      rfl).2⟩

/-- Claim C3, counterexample: the pattern `"a?"` contains the wildcard `?`
and glob-matches the live key `"ab"`, yet `keys("a?")` returns the empty
list: the source only consults `fnmatch` when the pattern contains `*`,
and otherwise filters by exact string equality, so `?` alone is not
honored. -/
theorem C3_counterexample :
    PocketDB.fnmatch "ab" "a?" = true ∧
      (PocketDB.keys 0 "a?" dbGlob).1 = Except.ok [] ∧
      keysOf dbGlob._data = ["ab"] := by
  refine ⟨?_, rfl, rfl⟩
  simp [PocketDB.fnmatch, PocketDB.globMatch]

/-- Claim C3 as amended: after pruning, a key is returned by
`keys(pattern)` iff it is live and: the pattern is exactly `"*"` (all keys
are returned), or the pattern contains the character `*` and the key
glob-matches it (here `?` is honored as part of glob matching), or the
pattern contains no `*` and the key equals the pattern verbatim — so a
pattern containing `?` but no `*` acts as an exact-match filter, not a
glob. -/
theorem C3_keys_pattern_semantics (now : Int) (pattern : String)
    (db : PocketDB) (k : String) (hwf : WF db) :
    ∃ l, PocketDB.keys now pattern db = (Except.ok l, pruneF now db) ∧
      (k ∈ l ↔ k ∈ keysOf (pruneF now db)._data ∧
        (pattern = "*" ∨
          ('*' ∈ pattern.data ∧ PocketDB.fnmatch k pattern = true) ∨
          ('*' ∉ pattern.data ∧ k = pattern))) := by
  unfold PocketDB.keys
  rw [prune_eq now hwf]
  by_cases h1 : pattern = "*"
  · refine ⟨keysOf (pruneF now db)._data, by simp [h1], ?_⟩
    simp [h1]
  · by_cases h2 : '*' ∈ pattern.data
    · refine ⟨(keysOf (pruneF now db)._data).filter
        (fun s => PocketDB.fnmatch s pattern), by simp [h1, h2], ?_⟩
      rw [List.mem_filter]
      constructor
      · rintro ⟨hm, hf⟩
        exact ⟨hm, Or.inr (Or.inl ⟨h2, hf⟩)⟩
      · rintro ⟨hm, h3 | h3 | h3⟩
        · exact absurd h3 h1
        · exact ⟨hm, h3.2⟩
        · exact absurd h2 h3.1
    · refine ⟨(keysOf (pruneF now db)._data).filter
        (fun s => decide (s = pattern)), by simp [h1, h2], ?_⟩
      rw [List.mem_filter]
      constructor
      · rintro ⟨hm, hf⟩
        exact ⟨hm, Or.inr (Or.inr ⟨h2, by simpa using hf⟩)⟩
      · rintro ⟨hm, h3 | h3 | h3⟩
        · exact absurd h3 h1
        · exact absurd h3.1 h2
        · exact ⟨hm, by simpa using h3.2⟩

/-- Claim C3, witness: the amended statement evaluated at the pattern
`"a*"` and key `"ab"` over the one-key store. -/
theorem C3_witness :
    ∃ l, PocketDB.keys 0 "a*" dbGlob = (Except.ok l, pruneF 0 dbGlob) ∧
      ("ab" ∈ l ↔ "ab" ∈ keysOf (pruneF 0 dbGlob)._data ∧
        ("a*" = "*" ∨
          ('*' ∈ "a*".data ∧ PocketDB.fnmatch "ab" "a*" = true) ∨
          ('*' ∉ "a*".data ∧ "ab" = "a*"))) :=
  C3_keys_pattern_semantics 0 "a*" dbGlob "ab" (by decide)

/-- Claim C6: no public operation ever increments the sets counter — after
any sequence of public calls on a fresh store (load excluded), `stats()`
succeeds and reports `sets = 0`, no matter how many successful `set` calls
the sequence contains. -/
theorem C6_sets_counter_never_incremented (tr : List (Int × COp)) (now : Int) :
    ∃ r db', PocketDB.stats now (runTrace tr PocketDB.init) =
        (Except.ok r, db') ∧ r.sets = 0 := by
  have hwf := runTrace_WF tr
  unfold PocketDB.stats
  rw [prune_eq now hwf]
  refine ⟨_, _, rfl, ?_⟩
  show (pruneF now (runTrace tr PocketDB.init))._stats.sets = 0
  simp only [pruneF]
  rw [runTrace_sets_eq tr WF_init]
  rfl

/-- Claim C8: in every state reachable by public operations from a fresh
store, every key of the expiry table is also present in the value table,
and every public operation preserves this invariant from any well-formed
state. -/
theorem C8_expiry_subset_invariant :
    (∀ tr : List (Int × COp), ttlSubData (runTrace tr PocketDB.init)) ∧
      ∀ (now : Int) (op : COp) (db : PocketDB), WF db →
        ttlSubData (runStep now op db) := by
  constructor
  · intro tr
    exact (runTrace_WF tr).2.2
  · intro now op db h
    exact (runStep_WF now op h).2.2

/-- Claim C8, witness: the invariant evaluated on the state reached by a
`set` with TTL followed by a `size`, and on one `delete` step from a
well-formed store. -/
theorem C8_witness :
    ttlSubData (runTrace
        [(0, COp.cset "k" PyVal.null (TTLArg.int 5)), (1, COp.csize)]
        PocketDB.init) ∧
      ttlSubData (runStep 2 (COp.cdelete "k") dbWithTTL) :=
  ⟨C8_expiry_subset_invariant.1
      [(0, COp.cset "k" PyVal.null (TTLArg.int 5)), (1, COp.csize)],
   C8_expiry_subset_invariant.2 2 (COp.cdelete "k") dbWithTTL (by decide)⟩

theorem get_hit_of (nowg : Int) (key : String) (value : PyVal)
    (db' : PocketDB) (hwf' : WF db') (hk : _validate_key key = true)
    (hd : getKey? db'._data key = Option.some value)
    (ht : getKey? db'._ttl key = Option.none) :
    (PocketDB.get nowg key PyVal.null db').1 = Except.ok value := by
  unfold PocketDB.get
  rw [if_neg (by simp [hk]), prune_eq nowg hwf']
  have hmem : (key, value) ∈ db'._data := mem_of_getKey?_eq_some hd
  have hie : isExpired nowg db'._ttl key = false := by
    unfold isExpired
    rw [ht]
  have hmem2 : (key, value) ∈ (pruneF nowg db')._data := by
    simp only [pruneF]
    exact List.mem_filter.2 ⟨hmem, by simp [hie]⟩
  have hnd : (keysOf (pruneF nowg db')._data).Nodup := (WF_pruneF nowg hwf').1
  have hg : getKey? (pruneF nowg db')._data key = Option.some value :=
    getKey?_eq_some_of_mem hnd hmem2
  simp [hg]

/-- Claim C9: for every valid key and serializable value from a well-formed
store, `set(key, value)` with no TTL returns true, and an immediately
following `get(key)` (at any later or earlier clock) returns exactly the
stored value. -/
theorem C9_set_get_roundtrip (now nowg : Int) (key : String) (value : PyVal)
    (db : PocketDB) (hwf : WF db) (hk : _validate_key key = true)
    (hv : _validate_value value = true) :
    ∃ db', PocketDB.set now key value TTLArg.none db = (Except.ok true, db') ∧
      (PocketDB.get nowg key PyVal.null db').1 = Except.ok value := by
  have hP := WF_pruneF now hwf
  by_cases he : hasKey (pruneF now db)._ttl key = true
  · have hset : PocketDB.set now key value TTLArg.none db =
        (Except.ok true,
          { pruneF now db with
            _data := setKey key value (pruneF now db)._data
            _ttl := eraseKey key (pruneF now db)._ttl }) := by
      unfold PocketDB.set
      rw [if_neg (by simp [hk]), if_neg (by simp [hv]), prune_eq now hwf]
      simp [he]
    refine ⟨_, hset, ?_⟩
    exact get_hit_of nowg key value _
      (@WF_set_data_erase key value _ hP) hk
      getKey?_setKey_self getKey?_eraseKey_self
  · simp only [Bool.not_eq_true] at he
    have hnot : key ∉ keysOf (pruneF now db)._ttl := by
      rw [← hasKey_iff_mem_keysOf, he]
      simp
    have hset : PocketDB.set now key value TTLArg.none db =
        (Except.ok true,
          { pruneF now db with
            _data := setKey key value (pruneF now db)._data }) := by
      unfold PocketDB.set
      rw [if_neg (by simp [hk]), if_neg (by simp [hv]), prune_eq now hwf]
      simp [he]
    refine ⟨_, hset, ?_⟩
    exact get_hit_of nowg key value _
      (@WF_set_data_only key value _ hP) hk
      getKey?_setKey_self (getKey?_eq_none_of_not_mem hnot)

/-- Claim C9, witness: the round-trip evaluated on a fresh store at key
`"k"` and value `"v"`, with the `get` one clock tick later. -/
theorem C9_witness :
    ∃ db', PocketDB.set 0 "k" (PyVal.str "v") TTLArg.none PocketDB.init =
        (Except.ok true, db') ∧
      (PocketDB.get 1 "k" PyVal.null db').1 = Except.ok (PyVal.str "v") :=
  C9_set_get_roundtrip 0 1 "k" (PyVal.str "v") PocketDB.init (by decide)
    (by decide) (by decide)

/-- Claim C10: from a well-formed store, `save` (with the disk write
succeeding) returns true, leaves the in-memory state exactly at its pruned
form, and writes that pruned state as the snapshot; loading that snapshot
into a fresh store at any later clock succeeds and reproduces the saved
value table and expiry table restricted to the entries not yet expired at
the time of the load. -/
theorem C10_save_load_roundtrip (now nowl : Int) (db : PocketDB)
    (hwf : WF db) :
    PocketDB.save_to_disk now false db =
        (Except.ok true, pruneF now db, Option.some (pruneF now db)) ∧
      ∃ db', PocketDB.load_from_disk nowl (Option.some (pruneF now db))
          PocketDB.init = (Except.ok true, db') ∧
        db'._data = restrictData nowl (pruneF now db)._ttl (pruneF now db)._data ∧
        db'._ttl = restrictTTL nowl (pruneF now db)._ttl := by
  constructor
  · unfold PocketDB.save_to_disk
    rw [prune_eq now hwf]
    rfl
  · refine ⟨pruneF nowl (pruneF now db), ?_, rfl, rfl⟩
    have h1 : PocketDB.load_from_disk nowl (Option.some (pruneF now db))
        PocketDB.init =
        match _prune_expired nowl (pruneF now db) with
        | (Except.error _, b1) => (Except.error Err.diskError, b1)
        | (Except.ok _, b1) => (Except.ok true, b1) := rfl
    rw [h1, prune_eq nowl (WF_pruneF now hwf)]

/-- Claim C10, witness: the save/load round-trip evaluated on a two-key
store whose key `"b"` expires at instant 10, saved at clock 0 and loaded
at clock 20. -/
theorem C10_witness :
    PocketDB.save_to_disk 0 false dbTwo =
        (Except.ok true, pruneF 0 dbTwo, Option.some (pruneF 0 dbTwo)) ∧
      ∃ db', PocketDB.load_from_disk 20 (Option.some (pruneF 0 dbTwo))
          PocketDB.init = (Except.ok true, db') ∧
        db'._data = restrictData 20 (pruneF 0 dbTwo)._ttl (pruneF 0 dbTwo)._data ∧
        db'._ttl = restrictTTL 20 (pruneF 0 dbTwo)._ttl :=
  C10_save_load_roundtrip 0 20 dbTwo (by decide)

theorem noExpired_eraseKey {now : Int} {k : String} {l : List (String × Int)}
    (h : ∀ p ∈ l, ¬ (p.2 < now)) : ∀ p ∈ eraseKey k l, ¬ (p.2 < now) :=
  fun p hp => h p (mem_eraseKey.1 hp).1

theorem noExpired_setKey {now n : Int} {k : String} {l : List (String × Int)}
    (h : ∀ p ∈ l, ¬ (p.2 < now)) (hn : ¬ n ≤ 0) :
    ∀ p ∈ setKey k (now + n) l, ¬ (p.2 < now) := by
  intro p hp
  rcases mem_setKey hp with h1 | h1
  · exact h p h1
  · rw [h1]
    simp only
    omega

/-- Claim C7, counterexample: on a store holding the key `"k"` expired
since instant 0, calling `reset` at instant 1 does not first prune: the
expired counter does not increase by the number of expired entries (1) —
the source's `reset` clears both tables without calling
`_prune_expired`. -/
theorem C7_counterexample : ¬ prunesFirst 1 COp.creset dbExpired := by
  decide

/-- Claim C7 as amended: every core operation of section 4.2 except
`reset` — `set`, `get`, `delete`, `exists`, `size`, `keys`, `values`,
`items`, `stats` (and `save` as well), with its argument validations
passing — first prunes expired entries: afterwards no entry with an expiry
strictly in the past remains in either table and the expired counter has
increased by exactly the number of entries pruned; `reset` instead clears
both tables without pruning, leaving every statistics counter (the expired
counter included) unchanged. -/
theorem C7_amended (now : Int) (op : COp) (db : PocketDB) (hwf : WF db)
    (hval : opValid op = true) :
    (op ≠ COp.creset → prunesFirst now op db) ∧
      (runStep now COp.creset db)._stats = db._stats ∧
      (runStep now COp.creset db)._ttl = [] := by
  refine ⟨?_, rfl, rfl⟩
  intro hne
  unfold prunesFirst
  cases op with
  | creset => exact absurd rfl hne
  | cset k v t =>
    simp only [opValid, Bool.and_eq_true] at hval
    obtain ⟨hk, hv⟩ := hval
    cases t with
    | int n =>
      by_cases hn : n ≤ 0
      · have hrun : runStep now (COp.cset k v (TTLArg.int n)) db =
            { pruneF now db with _data := setKey k v (pruneF now db)._data } := by
          simp only [runStep, PocketDB.set]
          rw [if_neg (by simp [hk]), if_neg (by simp [hv]), prune_eq now hwf]
          simp [hn]
        rw [hrun]
        exact ⟨noExpired_pruneF now db, expired_pruneF now db⟩
      · have hrun : runStep now (COp.cset k v (TTLArg.int n)) db =
            { pruneF now db with
              _data := setKey k v (pruneF now db)._data
              _ttl := setKey k (now + n) (pruneF now db)._ttl } := by
          simp only [runStep, PocketDB.set]
          rw [if_neg (by simp [hk]), if_neg (by simp [hv]), prune_eq now hwf]
          simp [hn]
        rw [hrun]
        exact ⟨noExpired_setKey (noExpired_pruneF now db) hn, expired_pruneF now db⟩
    | none =>
      by_cases he : hasKey (pruneF now db)._ttl k = true
      · have hrun : runStep now (COp.cset k v TTLArg.none) db =
            { pruneF now db with
              _data := setKey k v (pruneF now db)._data
              _ttl := eraseKey k (pruneF now db)._ttl } := by
          simp only [runStep, PocketDB.set]
          rw [if_neg (by simp [hk]), if_neg (by simp [hv]), prune_eq now hwf]
          simp [he]
        rw [hrun]
        exact ⟨noExpired_eraseKey (noExpired_pruneF now db), expired_pruneF now db⟩
      · simp only [Bool.not_eq_true] at he
        have hrun : runStep now (COp.cset k v TTLArg.none) db =
            { pruneF now db with _data := setKey k v (pruneF now db)._data } := by
          simp only [runStep, PocketDB.set]
          rw [if_neg (by simp [hk]), if_neg (by simp [hv]), prune_eq now hwf]
          simp [he]
        rw [hrun]
        exact ⟨noExpired_pruneF now db, expired_pruneF now db⟩
    | nonInt s =>
      by_cases he : hasKey (pruneF now db)._ttl k = true
      · have hrun : runStep now (COp.cset k v (TTLArg.nonInt s)) db =
            { pruneF now db with
              _data := setKey k v (pruneF now db)._data
              _ttl := eraseKey k (pruneF now db)._ttl } := by
          simp only [runStep, PocketDB.set]
          rw [if_neg (by simp [hk]), if_neg (by simp [hv]), prune_eq now hwf]
          simp [he]
        rw [hrun]
        exact ⟨noExpired_eraseKey (noExpired_pruneF now db), expired_pruneF now db⟩
      · simp only [Bool.not_eq_true] at he
        have hrun : runStep now (COp.cset k v (TTLArg.nonInt s)) db =
            { pruneF now db with _data := setKey k v (pruneF now db)._data } := by
          simp only [runStep, PocketDB.set]
          rw [if_neg (by simp [hk]), if_neg (by simp [hv]), prune_eq now hwf]
          simp [he]
        rw [hrun]
        exact ⟨noExpired_pruneF now db, expired_pruneF now db⟩
  | cget k d =>
    simp only [opValid] at hval
    cases hg : getKey? (pruneF now db)._data k with
    | some v =>
      have hrun : runStep now (COp.cget k d) db =
          { pruneF now db with _stats := { (pruneF now db)._stats with
              gets := (pruneF now db)._stats.gets + 1
              hits := (pruneF now db)._stats.hits + 1 } } := by
        simp only [runStep, PocketDB.get]
        rw [if_neg (by simp [hval]), prune_eq now hwf]
        simp [hg]
      rw [hrun]
      exact ⟨noExpired_pruneF now db, expired_pruneF now db⟩
    | none =>
      have hrun : runStep now (COp.cget k d) db =
          { pruneF now db with _stats := { (pruneF now db)._stats with
              gets := (pruneF now db)._stats.gets + 1
              misses := (pruneF now db)._stats.misses + 1 } } := by
        simp only [runStep, PocketDB.get]
        rw [if_neg (by simp [hval]), prune_eq now hwf]
        cases d <;> simp [hg]
      rw [hrun]
      exact ⟨noExpired_pruneF now db, expired_pruneF now db⟩
  | cdelete k =>
    simp only [opValid] at hval
    by_cases hd2 : hasKey (pruneF now db)._data k = true
    · by_cases ht2 : hasKey (pruneF now db)._ttl k = true
      · have hrun : runStep now (COp.cdelete k) db =
            { pruneF now db with
              _data := eraseKey k (pruneF now db)._data
              _ttl := eraseKey k (pruneF now db)._ttl
              _stats := { (pruneF now db)._stats with
                deletes := (pruneF now db)._stats.deletes + 1 } } := by
          simp only [runStep, PocketDB.delete]
          rw [if_neg (by simp [hval]), prune_eq now hwf]
          simp [hd2, ht2]
        rw [hrun]
        exact ⟨noExpired_eraseKey (noExpired_pruneF now db), expired_pruneF now db⟩
      · simp only [Bool.not_eq_true] at ht2
        have hrun : runStep now (COp.cdelete k) db =
            { pruneF now db with
              _data := eraseKey k (pruneF now db)._data
              _stats := { (pruneF now db)._stats with
                deletes := (pruneF now db)._stats.deletes + 1 } } := by
          simp only [runStep, PocketDB.delete]
          rw [if_neg (by simp [hval]), prune_eq now hwf]
          simp [hd2, ht2]
        rw [hrun]
        exact ⟨noExpired_pruneF now db, expired_pruneF now db⟩
    · simp only [Bool.not_eq_true] at hd2
      have hrun : runStep now (COp.cdelete k) db = pruneF now db := by
        simp only [runStep, PocketDB.delete]
        rw [if_neg (by simp [hval]), prune_eq now hwf]
        simp [hd2]
      rw [hrun]
      exact ⟨noExpired_pruneF now db, expired_pruneF now db⟩
  | cexists k =>
    simp only [opValid] at hval
    have hrun : runStep now (COp.cexists k) db = pruneF now db := by
      simp only [runStep, PocketDB.exists']
      rw [if_neg (by simp [hval]), prune_eq now hwf]
    rw [hrun]
    exact ⟨noExpired_pruneF now db, expired_pruneF now db⟩
  | csize =>
    have hrun : runStep now COp.csize db = pruneF now db := by
      simp only [runStep, PocketDB.size]
      rw [prune_eq now hwf]
    rw [hrun]
    exact ⟨noExpired_pruneF now db, expired_pruneF now db⟩
  | ckeys pat =>
    have hrun : runStep now (COp.ckeys pat) db = pruneF now db := by
      simp only [runStep, PocketDB.keys]
      rw [prune_eq now hwf]
      by_cases h1 : pat = "*"
      · simp [h1]
      · by_cases h2 : '*' ∈ pat.data <;> simp [h1, h2]
    rw [hrun]
    exact ⟨noExpired_pruneF now db, expired_pruneF now db⟩
  | cvalues =>
    have hrun : runStep now COp.cvalues db = pruneF now db := by
      simp only [runStep, PocketDB.values]
      rw [prune_eq now hwf]
    rw [hrun]
    exact ⟨noExpired_pruneF now db, expired_pruneF now db⟩
  | citems =>
    have hrun : runStep now COp.citems db = pruneF now db := by
      simp only [runStep, PocketDB.items]
      rw [prune_eq now hwf]
    rw [hrun]
    exact ⟨noExpired_pruneF now db, expired_pruneF now db⟩
  | cstats =>
    have hrun : runStep now COp.cstats db = pruneF now db := by
      simp only [runStep, PocketDB.stats]
      rw [prune_eq now hwf]
    rw [hrun]
    exact ⟨noExpired_pruneF now db, expired_pruneF now db⟩
  | csave f =>
    have hrun : runStep now (COp.csave f) db = pruneF now db := by
      simp only [runStep, PocketDB.save_to_disk]
      rw [prune_eq now hwf]
      cases f <;> rfl
    rw [hrun]
    exact ⟨noExpired_pruneF now db, expired_pruneF now db⟩

/-- Claim C7, witness: the amended statement evaluated at clock 1 on the
store with the expired key — `size` prunes it and the expired counter
grows by one, while `reset` leaves the statistics untouched. -/
theorem C7_witness :
    prunesFirst 1 COp.csize dbExpired ∧
      (runStep 1 COp.creset dbExpired)._stats = dbExpired._stats :=
  ⟨(C7_amended 1 COp.csize dbExpired (by decide) (by decide)).1
      (by intro hc; cases hc),
   (C7_amended 1 COp.csize dbExpired (by decide) (by decide)).2.1⟩
